import Mathlib

/-!
Verification of the CSV-to-JSON content pipeline of the portfolio-template
repository (script build-data.cjs).

The script is shallowly embedded: records produced by the CSV reader are
association lists from column names to raw string values (mirroring JS
objects, where a later assignment to the same key overwrites in place and
key order is insertion order), the JS Map used for grouping case-study
sections is an association list with insertion-order iteration, JS numbers
produced by the numeric coercion are rationals, and absent values
(undefined) are modelled with Option.
-/

namespace BuildData

/-- Trim leading and trailing whitespace from a character list. -/
def trimChars (cs : List Char) : List Char :=
  ((cs.dropWhile Char.isWhitespace).reverse.dropWhile Char.isWhitespace).reverse

/-- The JS `String.prototype.trim`, computed on the character list. -/
def trimStr (s : String) : String := ⟨trimChars s.toList⟩

/-- The JS `String.prototype.toLowerCase` (ASCII range). -/
def lowerStr (s : String) : String := ⟨s.toList.map Char.toLower⟩

/-- The JS `String.prototype.slice(0, n)`. -/
def takeStr (s : String) (n : Nat) : String := ⟨s.toList.take n⟩

/-- Split a character list at line-break characters, as the JS
`split(/\r?\n/)` does up to the carriage returns, which the subsequent
per-line trim removes in either reading. -/
def splitNL (cs : List Char) : List (List Char) :=
  cs.foldr
    (fun c acc =>
      if c = '\n' then [] :: acc
      else
        match acc with
        | [] => [[c]]
        | g :: gs => (c :: g) :: gs)
    [[]]

/-- A parsed CSV record or JS object: association list with unique keys. -/
abbrev Record := List (String × String)

/-- Lookup in an association list (JS object property access / Map.get);
returns none for an absent key (undefined). -/
def mapGet {α : Type} : List (String × α) → String → Option α
  | [], _ => none
  | p :: rest, k => if p.1 = k then some p.2 else mapGet rest k

/-- Assignment in an association list (JS object property assignment /
Map.set): an existing key keeps its position and gets the new value, a new
key is appended at the end. -/
def mapSet {α : Type} : List (String × α) → String → α → List (String × α)
  | [], k, v => [(k, v)]
  | p :: rest, k, v => if p.1 = k then (k, v) :: rest else p :: mapSet rest k v

/-- Field access on a record, `r.someField` in JS. -/
def getF (r : Record) (k : String) : Option String := mapGet r k

/-- JS truthiness of a string-or-undefined value: undefined and the empty
string are falsy. -/
def truthy (o : Option String) : Bool :=
  match o with
  | none => false
  | some s => s ≠ ""

/-- JS `a || b` on string-or-undefined values. -/
def jsOr (a b : Option String) : Option String :=
  if truthy a then a else b

/-- JS `a || b || null`: the first truthy value, otherwise null. -/
def toNull (o : Option String) : Option String :=
  if truthy o then o else none

-- ---------------------------------------------------------------------------
-- Coercion helpers (toBoolean / toNumber in the source)
-- ---------------------------------------------------------------------------

/-- Boolean coercion of a field value, from `toBoolean` in build-data.cjs:
a string whose trimmed lower-case form is true, 1 or yes maps to true,
everything else (including an absent value) to false. -/
def toBoolean (v : Option String) : Bool :=
  match v with
  | none => false
  | some s =>
    let t := lowerStr (trimStr s)
    t == "true" || t == "1" || t == "yes"

/-- Value of an unsigned decimal digit string. -/
def digitsVal (cs : List Char) : Nat :=
  cs.foldl (fun a c => a * 10 + (c.toNat - 48)) 0

/-- Parse an unsigned decimal literal (digits with an optional fractional
part) as JS Number does; none models NaN. -/
def parseUnsigned (cs : List Char) : Option Rat :=
  let ip := cs.takeWhile (fun c => c.isDigit)
  let rest := cs.dropWhile (fun c => c.isDigit)
  match rest with
  | [] => if ip.isEmpty then none else some ((digitsVal ip : Nat) : Rat)
  | c :: fp =>
    if c = '.' && fp.all (fun d => d.isDigit) && !(ip.isEmpty && fp.isEmpty) then
      some (((digitsVal ip : Nat) : Rat) + ((digitsVal fp : Nat) : Rat) / ((10 : Rat) ^ fp.length))
    else none

/-- The JS `Number(string)` conversion restricted to plain decimal
notation: surrounding whitespace is ignored, an optional sign precedes the
digits, and any other shape yields NaN (none). -/
def jsNumber (s : String) : Option Rat :=
  match (trimStr s).toList with
  | [] => some 0
  | '+' :: rest => parseUnsigned rest
  | '-' :: rest => (parseUnsigned rest).map (fun q => -q)
  | cs => parseUnsigned cs

/-- Numeric coercion of a field value, from `toNumber` in build-data.cjs:
absent or empty input and unparseable strings yield the fallback. -/
def toNumber (v : Option String) (fallback : Rat) : Rat :=
  match v with
  | none => fallback
  | some s => if s = "" then fallback else (jsNumber s).getD fallback

-- ---------------------------------------------------------------------------
-- CSV tokenizer (parseCSVLine in the source)
-- ---------------------------------------------------------------------------

/-- Character loop of `parseCSVLine`: scans left to right maintaining the
current field, the quote-mode flag and the fields emitted so far. A quote
immediately followed by a second quote while inside quote-mode emits one
literal quote and consumes both; any other quote toggles quote-mode; a
comma outside quote-mode flushes the trimmed current field. Reaching the
end with quote-mode still open is the fatal case (none). -/
def tokLoop : List Char → String → Bool → List String → Option (List String)
  | [], cur, inQ, acc => if inQ then none else some (acc ++ [trimStr cur])
  | '"' :: '"' :: rest, cur, true, acc => tokLoop rest (cur.push '"') true acc
  | '"' :: rest, cur, inQ, acc => tokLoop rest cur (!inQ) acc
  | c :: rest, cur, inQ, acc =>
    if c = ',' && !inQ then tokLoop rest ("") inQ (acc ++ [trimStr cur])
    else tokLoop rest (cur.push c) inQ acc

/-- Quote-mode state after scanning a whole line, starting from a given
state: mirrors exactly the quote-state transitions of the tokenizer. -/
def scanQuote : List Char → Bool → Bool
  | [], q => q
  | '"' :: '"' :: rest, true => scanQuote rest true
  | '"' :: rest, q => scanQuote rest (!q)
  | _ :: rest, q => scanQuote rest q

/-- True when the end of the line is reached with quote-mode still open. -/
def quoteOpenAtEnd (line : String) : Bool := scanQuote line.toList false

/-- Tokenization result of a line, independent of its line number. -/
def tokres (line : String) : Option (List String) := tokLoop line.toList ("") false []

/-- `parseCSVLine` from build-data.cjs: parse one CSV line into raw fields,
or throw (Except.error) a descriptive message on unbalanced quotes. -/
def parseCSVLine (line : String) (lineNumber : Nat) : Except String (List String) :=
  match tokres line with
  | some fields => Except.ok fields
  | none =>
    Except.error ("Unterminated quote in CSV line " ++ toString lineNumber ++ ": " ++ takeStr line 80 ++ "…")

-- ---------------------------------------------------------------------------
-- Table reader (parseCSV in the source)
-- ---------------------------------------------------------------------------

/-- Inner step of the header zip in `parseCSV`:
`headers.forEach((header, index) => record[header] = fields[index] ?? "")`,
with `j` the index of the first remaining header. -/
def buildRecordAux (fields : List String) : Nat → List String → Record → Record
  | _, [], r => r
  | j, h :: hs, r => buildRecordAux fields (j + 1) hs (mapSet r h (fields.getD j ("")))

/-- Build one record by zipping a row's fields against the header: a field
missing at some header position defaults to the empty string, fields
beyond the header's column count are dropped. -/
def buildRecord (headers fields : List String) : Record :=
  buildRecordAux fields 0 headers []

/-- Row loop of `parseCSV`: each line is tokenized; a line that fails to
tokenize is logged and skipped, every other line contributes a record. -/
def parseRows (headers : List String) : Nat → List String → List Record
  | _, [] => []
  | lineNo, line :: rest =>
    match parseCSVLine line lineNo with
    | Except.ok fields => buildRecord headers fields :: parseRows headers (lineNo + 1) rest
    | Except.error _ => parseRows headers (lineNo + 1) rest

/-- The non-empty trimmed lines of a CSV text (split on line breaks, trim,
drop blank lines), as in `parseCSV`. -/
def cleanLines (csvText : String) : List String :=
  ((splitNL csvText.toList).map (fun cs => trimStr ⟨cs⟩)).filter (fun l => l ≠ "")

/-- `parseCSV` from build-data.cjs: the first non-empty line is the header
(a header that fails to tokenize propagates as an error), each further
line is zipped against it, malformed rows are skipped. An empty input
yields an empty table. -/
def parseCSV (csvText : String) : Except String (List Record) :=
  match cleanLines csvText with
  | [] => Except.ok []
  | hline :: rest =>
    match parseCSVLine hline 1 with
    | Except.error e => Except.error e
    | Except.ok headers => Except.ok (parseRows headers 2 rest)

-- ---------------------------------------------------------------------------
-- Stable sort (JS Array.prototype.sort with a numeric key comparator)
-- ---------------------------------------------------------------------------

/-- Insert an element into a list, before the first element whose key is
not smaller; used to realize the stable JS sort. -/
def insertS {α : Type} (key : α → Rat) (x : α) : List α → List α
  | [] => [x]
  | y :: ys => if key x ≤ key y then x :: y :: ys else y :: insertS key x ys

/-- Stable ascending sort by a numeric key, modelling the (stable) JS
`array.sort((a, b) => key(a) - key(b))`. -/
def sortStable {α : Type} (key : α → Rat) (l : List α) : List α :=
  l.foldr (insertS key) []

-- ---------------------------------------------------------------------------
-- Output document shapes
-- ---------------------------------------------------------------------------

/-- A case-study section as grouped in `caseStudyById`, still carrying the
internal sort key `order`. -/
structure CSEntry where
  image : Option String
  text : Option String
  sectionTitle : Option String
  order : Rat
deriving DecidableEq, Repr

/-- A case-study or focus-area section in its final shape (order key
projected out). -/
structure Section where
  image : Option String
  text : Option String
  sectionTitle : Option String
deriving DecidableEq, Repr

/-- A project detail row in its output shape. -/
structure DetailOut where
  heading : Option String
  text : Option String
  image : String
  caseStudyLink : String
  password : String
deriving DecidableEq, Repr

/-- A normalized project document. -/
structure ProjectOut where
  id : String
  title : Option String
  subtitle : Option String
  description : Option String
  reversed : Bool
  hasDetailPage : Bool
  details : List DetailOut
  image : String
  images : List String
  caseStudy : List Section
  displayOrder : Rat
  password : String
deriving DecidableEq, Repr

/-- A normalized focus-area document. -/
structure FocusAreaOut where
  id : Option String
  title : Option String
  subtitle : Option String
  description : Option String
  sections : List Section
  displayOrder : Rat
  password : String
deriving DecidableEq, Repr

/-- A resume experience entry in its output shape. -/
structure ExperienceOut where
  company : Option String
  location : Option String
  startDate : Option String
  endDate : Option String
  role : Option String
  description : Option String
deriving DecidableEq, Repr

/-- A resume education entry in its output shape. -/
structure EducationOut where
  school : Option String
  location : Option String
  startDate : Option String
  endDate : Option String
  degree : Option String
  details : Option String
deriving DecidableEq, Repr

/-- A resume skill category in its output shape. -/
structure SkillOut where
  category : Option String
  items : Option String
deriving DecidableEq, Repr

/-- The resume document. -/
structure ResumeOut where
  header : Record
  experience : List ExperienceOut
  education : List EducationOut
  skills : List SkillOut
deriving DecidableEq, Repr

/-- A standalone case-study group whose key matches no project id. -/
structure OrphanCS where
  id : String
  caseStudy : List Section
deriving DecidableEq, Repr

-- ---------------------------------------------------------------------------
-- Join / normalize engine (buildData in the source)
-- ---------------------------------------------------------------------------

/-- The trimmed foreign key of a case-study-section row:
`(cs.project_id || cs.projectId || "").trim()`. -/
def csFK (cs : Record) : String :=
  trimStr ((jsOr (getF cs ("project_id")) (getF cs ("projectId"))).getD (""))

/-- The entry pushed for one case-study-section row. -/
def mkCSEntry (cs : Record) : CSEntry :=
  { image := getF cs ("image_url")
    text := getF cs ("text")
    sectionTitle := toNull (jsOr (getF cs ("section_title")) (getF cs ("sectionTitle")))
    order := toNumber (Option.or (getF cs ("section_order")) (getF cs ("sectionOrder"))) 0 }

/-- One step of the reduce that groups case-study sections: a row whose
trimmed key is empty is dropped, otherwise its entry is appended to the
group under its key. -/
def csStep (acc : List (String × List CSEntry)) (cs : Record) : List (String × List CSEntry) :=
  let id := csFK cs
  if id = "" then acc
  else mapSet acc id ((mapGet acc id).getD [] ++ [mkCSEntry cs])

/-- `caseStudyById`: group case-study-section rows by trimmed foreign key,
in insertion order, skipping rows with an empty key. -/
def caseStudyById (rows : List Record) : List (String × List CSEntry) :=
  rows.foldl csStep []

/-- Sort key of a project-detail row: numeric detail order under either
header spelling, fallback 0. -/
def detailKey (d : Record) : Rat :=
  toNumber (Option.or (getF d ("detail_order")) (getF d ("detailOrder"))) 0

/-- Map a project-detail row into its output shape. -/
def mkDetail (d : Record) : DetailOut :=
  { heading := getF d ("heading")
    text := getF d ("text")
    image := (jsOr (getF d ("image")) (getF d ("image_url"))).getD ("")
    caseStudyLink := (jsOr (getF d ("case_study_link")) (getF d ("caseStudyLink"))).getD ("")
    password := (getF d ("password")).getD ("") }

/-- Sort key of a grouped case-study entry. -/
def csOrder (e : CSEntry) : Rat := e.order

/-- Strip the internal order key from a grouped case-study entry. -/
def stripOrder (e : CSEntry) : Section :=
  { image := e.image, text := e.text, sectionTitle := e.sectionTitle }

/-- Sort a case-study group by section order and project out the order
key, as done both when attaching to a project and in the orphan map. -/
def processGroup (l : List CSEntry) : List Section :=
  (sortStable csOrder l).map stripOrder

/-- Normalize one project row: trim the id, attach its sorted details,
derive the single-image gallery, attach its case-study group, coerce the
flags and the display order. -/
def normProject (projectDetails : List Record) (groups : List (String × List CSEntry)) (p : Record) : ProjectOut :=
  let id := trimStr ((getF p ("id")).getD (""))
  let details :=
    (sortStable detailKey (projectDetails.filter (fun d => getF d ("project_id") == some id))).map mkDetail
  let primaryImage := (jsOr (getF p ("image")) (getF p ("image_url"))).getD ("")
  let images := if primaryImage ≠ "" then [primaryImage] else []
  { id := id
    title := getF p ("title")
    subtitle := getF p ("subtitle")
    description := getF p ("description")
    reversed := toBoolean (getF p ("reversed"))
    hasDetailPage := toBoolean (getF p ("hasDetailPage"))
    details := details
    image := primaryImage
    images := images
    caseStudy := processGroup ((mapGet groups id).getD [])
    displayOrder := toNumber (Option.or (getF p ("display_order")) (getF p ("displayOrder"))) 0
    password := (getF p ("password")).getD ("") }

/-- Sort key of a normalized project. -/
def projKey (p : ProjectOut) : Rat := p.displayOrder

/-- `projectsData`: normalize every project row and sort the list
ascending by display order (stable). -/
def projectsData (projects projectDetails caseStudySections : List Record) : List ProjectOut :=
  sortStable projKey (projects.map (normProject projectDetails (caseStudyById caseStudySections)))

/-- `caseStudyOnly`: the standalone case-study collection, keeping exactly
the groups whose key is the id of no normalized project, with the same
per-group sort and order-key strip. -/
def caseStudyOnly (projects projectDetails caseStudySections : List Record) : List OrphanCS :=
  ((caseStudyById caseStudySections).filter
    (fun e =>
      !((projectsData projects projectDetails caseStudySections).any (fun p => p.id == e.1)))).map
    (fun e => { id := e.1, caseStudy := processGroup e.2 })

/-- Sort key of a focus-area-section row. -/
def secKey (s : Record) : Rat :=
  toNumber (Option.or (getF s ("section_order")) (getF s ("sectionOrder"))) 0

/-- Map a focus-area-section row into its output shape. -/
def mkFASection (s : Record) : Section :=
  { image := getF s ("image_url")
    text := getF s ("text")
    sectionTitle := toNull (jsOr (getF s ("section_title")) (getF s ("sectionTitle"))) }

/-- Normalize one focus-area row with its sorted sections. -/
def normFocusArea (focusAreaSections : List Record) (fa : Record) : FocusAreaOut :=
  let id := getF fa ("id")
  let sections :=
    (sortStable secKey (focusAreaSections.filter (fun s => getF s ("focus_area_id") == id))).map mkFASection
  { id := id
    title := getF fa ("title")
    subtitle := getF fa ("subtitle")
    description := getF fa ("description")
    sections := sections
    displayOrder := toNumber (Option.or (getF fa ("display_order")) (getF fa ("displayOrder"))) 0
    password := (getF fa ("password")).getD ("") }

/-- Sort key of a normalized focus area. -/
def faKey (fa : FocusAreaOut) : Rat := fa.displayOrder

/-- `focusAreasData`: normalize and sort the focus areas. -/
def focusAreasData (focusAreas focusAreaSections : List Record) : List FocusAreaOut :=
  sortStable faKey (focusAreas.map (normFocusArea focusAreaSections))

/-- Sort key of a resume table row: numeric display order under either
header spelling, fallback 0. -/
def resKey (r : Record) : Rat :=
  toNumber (Option.or (getF r ("display_order")) (getF r ("displayOrder"))) 0

/-- Map a resume-experience row into its output shape. -/
def mkExperience (e : Record) : ExperienceOut :=
  { company := getF e ("company")
    location := getF e ("location")
    startDate := getF e ("start_date")
    endDate := getF e ("end_date")
    role := getF e ("role")
    description := getF e ("description") }

/-- Map a resume-education row into its output shape. -/
def mkEducation (e : Record) : EducationOut :=
  { school := getF e ("school")
    location := getF e ("location")
    startDate := getF e ("start_date")
    endDate := getF e ("end_date")
    degree := getF e ("degree")
    details := getF e ("details") }

/-- Map a resume-skills row into its output shape. -/
def mkSkill (s : Record) : SkillOut :=
  { category := getF s ("category"), items := getF s ("items") }

/-- `resumeData`: the header is the first row verbatim (or an empty
mapping for an empty table); the three sequences are each independently
sorted by display order and field-renamed. -/
def resumeData (resumeHeader resumeExperience resumeEducation resumeSkills : List Record) : ResumeOut :=
  { header :=
      match resumeHeader with
      | [] => []
      | r :: _ => r
    experience := (sortStable resKey resumeExperience).map mkExperience
    education := (sortStable resKey resumeEducation).map mkEducation
    skills := (sortStable resKey resumeSkills).map mkSkill }

-- ---------------------------------------------------------------------------
-- Write phase (the four fs.writeFileSync calls at the end of buildData)
-- ---------------------------------------------------------------------------

/-- A serialized output document (the JSON payload of one output file). -/
inductive Doc where
  | projects : List ProjectOut → Doc
  | focusAreas : List FocusAreaOut → Doc
  | resume : ResumeOut → Doc
  | caseStudies : List OrphanCS → Doc
deriving DecidableEq, Repr

/-- The four output writes of `buildData`, in program order. -/
def buildWriteOps (projects projectDetails caseStudySections focusAreas focusAreaSections
    resumeHeader resumeExperience resumeEducation resumeSkills : List Record) : List (String × Doc) :=
  [(("projects.json"), Doc.projects (projectsData projects projectDetails caseStudySections)),
   (("focus-areas.json"), Doc.focusAreas (focusAreasData focusAreas focusAreaSections)),
   (("resume.json"), Doc.resume (resumeData resumeHeader resumeExperience resumeEducation resumeSkills)),
   (("case-studies.json"), Doc.caseStudies (caseStudyOnly projects projectDetails caseStudySections))]

/-- One `fs.writeFileSync` call: plain overwrite of the named file in the
output directory. -/
def writeStep (dir : List (String × Doc)) (op : String × Doc) : List (String × Doc) :=
  mapSet dir op.1 op.2

/-- Run the write sequence against an output directory. `failAt` is the
index of the first write that raises (none when every write succeeds); a
raising write leaves its own target untouched, the exception propagates to
the top-level catch and the process exits with code 1. The result is the
final directory content and the exit code. -/
def runWrites : List (String × Doc) → List (String × Doc) → Option Nat → List (String × Doc) × Nat
  | dir, [], _ => (dir, 0)
  | dir, _ :: _, some 0 => (dir, 1)
  | dir, op :: rest, some (k + 1) => runWrites (writeStep dir op) rest (some k)
  | dir, op :: rest, none => runWrites (writeStep dir op) rest none

-- ---------------------------------------------------------------------------
-- Association-list lemmas
-- ---------------------------------------------------------------------------

theorem mapGet_set_self {α : Type} (m : List (String × α)) (k : String) (v : α) :
    mapGet (mapSet m k v) k = some v := by
  induction m with
  | nil => simp [mapSet, mapGet]
  | cons p rest ih =>
    by_cases h : p.1 = k
    · simp [mapSet, h, mapGet]
    · simp [mapSet, h, mapGet, ih]

theorem mapGet_set_ne {α : Type} (m : List (String × α)) (k k' : String) (v : α) (h : k' ≠ k) :
    mapGet (mapSet m k v) k' = mapGet m k' := by
  induction m with
  | nil =>
    have hkk : ¬ (k = k') := fun hh => h hh.symm
    simp [mapSet, mapGet, hkk]
  | cons p rest ih =>
    have hkk : ¬ (k = k') := fun hh => h hh.symm
    by_cases hp : p.1 = k
    · simp [mapSet, hp, mapGet, hkk]
    · simp only [mapSet, if_neg hp, mapGet]
      by_cases hp' : p.1 = k' <;> simp [hp', ih]

theorem mapGet_eq_some_mem {α : Type} {m : List (String × α)} {k : String} {v : α}
    (h : mapGet m k = some v) : (k, v) ∈ m := by
  induction m with
  | nil => simp [mapGet] at h
  | cons p rest ih =>
    by_cases hp : p.1 = k
    · simp only [mapGet, if_pos hp] at h
      have : p = (k, v) := by
        cases p
        simp_all
      simp [this]
    · simp only [mapGet, if_neg hp] at h
      exact List.mem_cons_of_mem _ (ih h)

theorem mapGet_set_isSome {α : Type} (m : List (String × α)) (k k' : String) (v : α) :
    (mapGet (mapSet m k v) k').isSome = true ↔ k' = k ∨ (mapGet m k').isSome = true := by
  by_cases h : k' = k
  · subst h
    simp [mapGet_set_self]
  · simp [mapGet_set_ne m k k' v h, h]

-- ---------------------------------------------------------------------------
-- Stable-sort lemmas
-- ---------------------------------------------------------------------------

theorem sortStable_nil {α : Type} (key : α → Rat) : sortStable key [] = [] := rfl

theorem sortStable_cons {α : Type} (key : α → Rat) (x : α) (l : List α) :
    sortStable key (x :: l) = insertS key x (sortStable key l) := rfl

theorem insertS_perm {α : Type} (key : α → Rat) (x : α) (l : List α) :
    List.Perm (insertS key x l) (x :: l) := by
  induction l with
  | nil => simp [insertS]
  | cons y ys ih =>
    rw [insertS]
    by_cases h : key x ≤ key y
    · simp [h]
    · simp only [if_neg h]
      exact (ih.cons y).trans (List.Perm.swap x y ys)

theorem sortStable_perm {α : Type} (key : α → Rat) (l : List α) :
    List.Perm (sortStable key l) l := by
  induction l with
  | nil => simp [sortStable]
  | cons x xs ih =>
    rw [sortStable_cons]
    exact (insertS_perm key x (sortStable key xs)).trans (ih.cons x)

theorem insertS_pairwise {α : Type} (key : α → Rat) (x : α) (l : List α)
    (h : l.Pairwise (fun a b => key a ≤ key b)) :
    (insertS key x l).Pairwise (fun a b => key a ≤ key b) := by
  induction l with
  | nil => simp [insertS]
  | cons y ys ih =>
    rw [insertS]
    rw [List.pairwise_cons] at h
    by_cases hxy : key x ≤ key y
    · rw [if_pos hxy, List.pairwise_cons]
      refine ⟨?_, List.pairwise_cons.mpr h⟩
      intro a ha
      rcases List.mem_cons.mp ha with rfl | ha
      · exact hxy
      · exact le_trans hxy (h.1 a ha)
    · rw [if_neg hxy, List.pairwise_cons]
      refine ⟨?_, ih h.2⟩
      intro a ha
      rcases List.mem_cons.mp ((insertS_perm key x ys).mem_iff.mp ha) with rfl | ha
      · exact le_of_not_le hxy
      · exact h.1 a ha

theorem sortStable_pairwise {α : Type} (key : α → Rat) (l : List α) :
    (sortStable key l).Pairwise (fun a b => key a ≤ key b) := by
  induction l with
  | nil => simp [sortStable]
  | cons x xs ih =>
    rw [sortStable_cons]
    exact insertS_pairwise key x _ ih

theorem filter_insertS {α : Type} (key : α → Rat) (x : α) (l : List α) (c : Rat) :
    (insertS key x l).filter (fun a => decide (key a = c)) =
      if key x = c then x :: l.filter (fun a => decide (key a = c))
      else l.filter (fun a => decide (key a = c)) := by
  induction l with
  | nil =>
    by_cases hx : key x = c <;> simp [insertS, List.filter_cons, hx]
  | cons y ys ih =>
    rw [insertS]
    by_cases hxy : key x ≤ key y
    · rw [if_pos hxy]
      by_cases hx : key x = c <;> by_cases hy : key y = c <;>
        simp [List.filter_cons, hx, hy]
    · rw [if_neg hxy]
      by_cases hx : key x = c
      · have hy : ¬ (key y = c) := fun hy => hxy (le_of_eq (hx.trans hy.symm))
        simp [List.filter_cons, hy, hx, ih]
      · by_cases hy : key y = c <;> simp [List.filter_cons, hy, hx, ih]

theorem sortStable_filter {α : Type} (key : α → Rat) (l : List α) (c : Rat) :
    (sortStable key l).filter (fun a => decide (key a = c)) =
      l.filter (fun a => decide (key a = c)) := by
  induction l with
  | nil => simp [sortStable]
  | cons x xs ih =>
    rw [sortStable_cons, filter_insertS]
    by_cases hx : key x = c <;> simp [List.filter_cons, hx, ih]

-- ---------------------------------------------------------------------------
-- Tokenizer and table-reader lemmas
-- ---------------------------------------------------------------------------

theorem tokLoop_eq_none_iff (cs : List Char) (cur : String) (inQ : Bool) (acc : List String) :
    tokLoop cs cur inQ acc = none ↔ scanQuote cs inQ = true := by
  induction cs, cur, inQ, acc using tokLoop.induct with
  | case1 cur acc =>
    simp [tokLoop.eq_1, scanQuote.eq_1]
  | case2 cur inQ acc h =>
    rw [Bool.not_eq_true] at h
    subst h
    simp [tokLoop.eq_1, scanQuote.eq_1]
  | case3 rest cur acc ih =>
    rw [tokLoop.eq_2, scanQuote.eq_2]
    exact ih
  | case4 rest cur inQ acc h ih =>
    rw [tokLoop.eq_3 cur inQ acc rest h, scanQuote.eq_3 inQ rest h]
    exact ih
  | case5 c rest cur inQ acc h1 h2 h3 ih =>
    rw [tokLoop.eq_4 cur inQ acc c rest h2 h1, scanQuote.eq_4 inQ c rest h2 h1, if_pos h3]
    exact ih
  | case6 c rest cur inQ acc h1 h2 h3 ih =>
    rw [tokLoop.eq_4 cur inQ acc c rest h2 h1, scanQuote.eq_4 inQ c rest h2 h1, if_neg h3]
    exact ih

theorem tokres_eq_none_iff (line : String) :
    tokres line = none ↔ quoteOpenAtEnd line = true :=
  tokLoop_eq_none_iff line.toList ("") false []

theorem parseRows_eq_filterMap (headers : List String) (n : Nat) (l : List String) :
    parseRows headers n l = l.filterMap (fun line => (tokres line).map (buildRecord headers)) := by
  induction l generalizing n with
  | nil => simp [parseRows]
  | cons line rest ih =>
    rw [parseRows, parseCSVLine]
    cases h : tokres line <;> simp [h, ih, List.filterMap_cons]

-- ---------------------------------------------------------------------------
-- Record-construction lemmas
-- ---------------------------------------------------------------------------

theorem buildRecordAux_isSome (fields : List String) (hs : List String) :
    ∀ (j : Nat) (r : Record) (k : String),
      (mapGet (buildRecordAux fields j hs r) k).isSome = true ↔
        k ∈ hs ∨ (mapGet r k).isSome = true := by
  induction hs with
  | nil => simp [buildRecordAux]
  | cons h hs ih =>
    intro j r k
    rw [buildRecordAux, ih]
    rw [mapGet_set_isSome]
    constructor
    · rintro (hk | hk | hk)
      · exact Or.inl (List.mem_cons_of_mem _ hk)
      · exact Or.inl (hk ▸ List.mem_cons_self h hs)
      · exact Or.inr hk
    · rintro (hk | hk)
      · rcases List.mem_cons.mp hk with rfl | hk
        · exact Or.inr (Or.inl rfl)
        · exact Or.inl hk
      · exact Or.inr (Or.inr hk)

theorem buildRecord_isSome (headers fields : List String) (k : String) :
    (mapGet (buildRecord headers fields) k).isSome = true ↔ k ∈ headers := by
  rw [buildRecord, buildRecordAux_isSome]
  simp [mapGet]

theorem buildRecordAux_take (fields : List String) (hs : List String) :
    ∀ (j : Nat) (r : Record),
      buildRecordAux fields j hs r = buildRecordAux (fields.take (j + hs.length)) j hs r := by
  induction hs with
  | nil => simp [buildRecordAux]
  | cons h hs ih =>
    intro j r
    rw [buildRecordAux, buildRecordAux]
    have hget : (fields.take (j + (h :: hs).length)).getD j ("") = fields.getD j ("") := by
      simp only [List.getD_eq_getElem?_getD]
      rw [List.getElem?_take_of_lt]
      simp [Nat.lt_add_of_pos_right, Nat.succ_pos]
    rw [hget]
    rw [ih (j + 1) (mapSet r h (fields.getD j ("")))]
    have harith : j + 1 + hs.length = j + (h :: hs).length := by
      simp [List.length_cons]
      omega
    rw [harith]

theorem buildRecord_take (headers fields : List String) :
    buildRecord headers fields = buildRecord headers (fields.take headers.length) := by
  rw [buildRecord, buildRecord, buildRecordAux_take]
  simp

theorem buildRecordAux_notmem (fields : List String) (hs : List String) :
    ∀ (j : Nat) (r : Record) (k : String), k ∉ hs →
      mapGet (buildRecordAux fields j hs r) k = mapGet r k := by
  induction hs with
  | nil => simp [buildRecordAux]
  | cons h hs ih =>
    intro j r k hk
    rw [buildRecordAux, ih _ _ _ (fun hmem => hk (List.mem_cons_of_mem _ hmem))]
    exact mapGet_set_ne _ _ _ _ (fun he => hk (he ▸ List.mem_cons_self h hs))

theorem buildRecordAux_get (fields : List String) (hs : List String) :
    ∀ (j : Nat) (r : Record), hs.Nodup → ∀ (i : Fin hs.length),
      mapGet (buildRecordAux fields j hs r) (hs.get i) = some (fields.getD (j + i.1) ("")) := by
  induction hs with
  | nil =>
    intro j r _ i
    exact absurd i.2 (by simp)
  | cons h hs ih =>
    intro j r hnd i
    rw [List.nodup_cons] at hnd
    rcases i with ⟨iv, hi⟩
    cases iv with
    | zero =>
      rw [buildRecordAux]
      simp only [List.get]
      rw [buildRecordAux_notmem fields hs (j + 1) _ h hnd.1]
      rw [mapGet_set_self]
      simp
    | succ i' =>
      rw [buildRecordAux]
      have hi' : i' < hs.length := by
        simpa using hi
      have := ih (j + 1) (mapSet r h (fields.getD j (""))) hnd.2 ⟨i', hi'⟩
      simp only [List.get] at this ⊢
      rw [this]
      have : j + 1 + i' = j + (i' + 1) := by omega
      rw [this]

theorem buildRecord_get (headers fields : List String) (hnd : headers.Nodup) (i : Fin headers.length) :
    mapGet (buildRecord headers fields) (headers.get i) = some (fields.getD i.1 ("")) := by
  rw [buildRecord, buildRecordAux_get fields headers 0 [] hnd i]
  simp

-- ---------------------------------------------------------------------------
-- Write-phase lemmas
-- ---------------------------------------------------------------------------

theorem runWrites_none (ops : List (String × Doc)) :
    ∀ dir : List (String × Doc), runWrites dir ops none = (ops.foldl writeStep dir, 0) := by
  induction ops with
  | nil => intro dir; simp [runWrites]
  | cons op rest ih => intro dir; rw [runWrites, ih, List.foldl_cons]

theorem runWrites_fail (ops : List (String × Doc)) :
    ∀ (dir : List (String × Doc)) (k : Nat), k < ops.length →
      runWrites dir ops (some k) = ((ops.take k).foldl writeStep dir, 1) := by
  induction ops with
  | nil =>
    intro dir k hk
    exact absurd hk (by simp)
  | cons op rest ih =>
    intro dir k hk
    cases k with
    | zero => simp [runWrites]
    | succ k' =>
      rw [runWrites, ih _ k' (by simpa using hk)]
      simp [List.take_succ_cons]

deriving instance DecidableEq for Except

theorem parseCSV_eq (text : String) (hline : String) (rest : List String)
    (h : cleanLines text = hline :: rest) :
    parseCSV text =
      match parseCSVLine hline 1 with
      | Except.error e => Except.error e
      | Except.ok headers => Except.ok (parseRows headers 2 rest) := by
  unfold parseCSV
  rw [h]

theorem filterMap_tokres_map (headers : List String) :
    ∀ l : List String, (∀ x, x ∈ l → (tokres x).isSome = true) →
      l.filterMap (fun line => (tokres line).map (buildRecord headers)) =
        l.map (fun line => buildRecord headers ((tokres line).getD [])) := by
  intro l
  induction l with
  | nil => simp
  | cons a as ih =>
    intro h
    obtain ⟨fa, hfa⟩ := Option.isSome_iff_exists.mp (h a (List.mem_cons_self a as))
    simp [List.filterMap_cons, hfa, ih (fun x hx => h x (List.mem_cons_of_mem _ hx))]

theorem mem_projectsData_iff (projects projectDetails css : List Record) (p : ProjectOut) :
    p ∈ projectsData projects projectDetails css ↔
      ∃ row, row ∈ projects ∧ normProject projectDetails (caseStudyById css) row = p := by
  unfold projectsData
  rw [(sortStable_perm projKey _).mem_iff]
  exact List.mem_map

theorem mem_focusAreasData_iff (fas fass : List Record) (fa : FocusAreaOut) :
    fa ∈ focusAreasData fas fass ↔
      ∃ row, row ∈ fas ∧ normFocusArea fass row = fa := by
  unfold focusAreasData
  rw [(sortStable_perm faKey _).mem_iff]
  exact List.mem_map

theorem caseStudy_formula (projects projectDetails css : List Record) (p : ProjectOut)
    (hp : p ∈ projectsData projects projectDetails css) :
    p.caseStudy = processGroup ((mapGet (caseStudyById css) p.id).getD []) := by
  obtain ⟨row, _, hrow⟩ := (mem_projectsData_iff projects projectDetails css p).mp hp
  rw [← hrow]
  rfl

-- ---------------------------------------------------------------------------
-- Claim theorems
-- ---------------------------------------------------------------------------

/-- C7: the tokenizer treats a comma inside quote-mode as literal field
content and a doubled quote inside quote-mode as one literal quote:
tokenizing a,"b,c",d yields the fields a / b,c / d, and tokenizing
a,"b""c",d yields a / b"c / d. -/
theorem tokenizer_quoting_c7 :
    parseCSVLine ("a,\"b,c\",d") 1 = Except.ok [("a"), ("b,c"), ("d")]
    ∧ parseCSVLine ("a,\"b\"\"c\",d") 1 = Except.ok [("a"), ("b\"c"), ("d")] := by
  constructor <;> decide

/-- C9: boolean coercion maps exactly the strings whose trimmed lower-case
form is true, 1 or yes to true, and every other input, including the
absent value, to false; it is a total function with no error path. -/
theorem boolean_coercion_c9 :
    (∀ s : String, toBoolean (some s) = true ↔
        lowerStr (trimStr s) = "true" ∨ lowerStr (trimStr s) = "1" ∨ lowerStr (trimStr s) = "yes")
    ∧ toBoolean none = false
    ∧ toBoolean (some ("TRUE")) = true
    ∧ toBoolean (some ("true")) = true
    ∧ toBoolean (some ("1")) = true
    ∧ toBoolean (some ("yes")) = true
    ∧ toBoolean (some ("")) = false
    ∧ toBoolean (some ("false")) = false
    ∧ toBoolean (some ("no")) = false
    ∧ toBoolean (some ("2")) = false := by
  refine ⟨?_, by decide, by decide, by decide, by decide, by decide, by decide, by decide, by decide, by decide⟩
  intro s
  simp [toBoolean]
  tauto

/-- C8: the resume document's header is the first row of the resume-header
table verbatim, and an empty table gives the empty mapping rather than an
error; the experience, education and skills sequences are each the
field-renamed image of their table sorted ascending by numeric display
order. -/
theorem resume_shape_c8 :
    (∀ re red rs : List Record, ∀ r0 : Record, ∀ rrest : List Record,
        (resumeData (r0 :: rrest) re red rs).header = r0)
    ∧ (∀ re red rs : List Record, (resumeData [] re red rs).header = [])
    ∧ (∀ rh re red rs : List Record,
        (resumeData rh re red rs).experience = (sortStable resKey re).map mkExperience)
    ∧ (∀ rh re red rs : List Record,
        (resumeData rh re red rs).education = (sortStable resKey red).map mkEducation)
    ∧ (∀ rh re red rs : List Record,
        (resumeData rh re red rs).skills = (sortStable resKey rs).map mkSkill)
    ∧ (∀ rows : List Record,
        (sortStable resKey rows).Pairwise (fun a b => resKey a ≤ resKey b)) :=
  ⟨fun _ _ _ _ _ => rfl, fun _ _ _ => rfl, fun _ _ _ _ => rfl, fun _ _ _ _ => rfl,
   fun _ _ _ _ => rfl, fun rows => sortStable_pairwise resKey rows⟩

/-- C3: the normalized project list is sorted ascending by numeric
displayOrder with missing, empty or non-numeric values falling back to 0,
the sort is stable with respect to the original table order, and on the
three-row example with displayOrder 2 / 1 / empty the output order of ids
is c, b, a. -/
theorem projects_sorted_c3 :
    (∀ projects projectDetails css : List Record,
        (projectsData projects projectDetails css).Pairwise
          (fun a b => a.displayOrder ≤ b.displayOrder))
    ∧ (∀ projects projectDetails css : List Record, ∀ c : Rat,
        (projectsData projects projectDetails css).filter (fun p => decide (p.displayOrder = c)) =
          (projects.map (normProject projectDetails (caseStudyById css))).filter
            (fun p => decide (p.displayOrder = c)))
    ∧ (∀ p : Record, ∀ pd : List Record, ∀ g : List (String × List CSEntry),
        (normProject pd g p).displayOrder =
          toNumber (Option.or (getF p ("display_order")) (getF p ("displayOrder"))) 0)
    ∧ toNumber none 0 = 0
    ∧ toNumber (some ("")) 0 = 0
    ∧ toNumber (some ("abc")) 0 = 0
    ∧ (projectsData
        [[(("id"), ("a")), (("displayOrder"), ("2"))],
         [(("id"), ("b")), (("displayOrder"), ("1"))],
         [(("id"), ("c")), (("displayOrder"), (""))]] [] []).map (fun p => p.id) =
        [("c"), ("b"), ("a")] := by
  refine ⟨?_, ?_, fun _ _ _ => rfl, by decide, by decide, by decide, by decide⟩
  · intro projects projectDetails css
    exact sortStable_pairwise projKey _
  · intro projects projectDetails css c
    exact sortStable_filter projKey _ c

/-- C5: a line reaching its end with quote-mode still open makes the
tokenizer raise the fatal error carrying the line number and an
80-character preview, and the table reader skips exactly that row: the
parse of a table containing the malformed row equals the parse of the same
table without it, every other valid row being returned. -/
theorem unterminated_quote_row_skip_c5 (text1 text2 hline bad : String) (pre post : List String)
    (h1 : cleanLines text1 = hline :: (pre ++ bad :: post))
    (h2 : cleanLines text2 = hline :: (pre ++ post))
    (hbad : quoteOpenAtEnd bad = true) :
    parseCSV text1 = parseCSV text2
    ∧ (∀ n : Nat, parseCSVLine bad n =
        Except.error ("Unterminated quote in CSV line " ++ toString n ++ ": " ++ takeStr bad 80 ++ "…")) := by
  have hb : tokres bad = none := (tokres_eq_none_iff bad).mpr hbad
  constructor
  · rw [parseCSV_eq text1 hline _ h1, parseCSV_eq text2 hline _ h2]
    cases hh : parseCSVLine hline 1 with
    | error e => rfl
    | ok headers =>
      dsimp only
      rw [parseRows_eq_filterMap, parseRows_eq_filterMap]
      rw [List.filterMap_append, List.filterMap_append, List.filterMap_cons, hb]
      rfl
  · intro n
    rw [parseCSVLine, hb]

/-- C5 witness: a concrete table whose third line has an unterminated
quote parses to the same records as the table without that line, and the
tokenizer reports the descriptive error on it. -/
theorem unterminated_quote_row_skip_c5_witness :
    parseCSV ("h1,h2\na,b\n\"x,y\nc,d") = parseCSV ("h1,h2\na,b\nc,d")
    ∧ (∀ n : Nat, parseCSVLine ("\"x,y") n =
        Except.error ("Unterminated quote in CSV line " ++ toString n ++ ": " ++ takeStr ("\"x,y") 80 ++ "…")) :=
  unterminated_quote_row_skip_c5 ("h1,h2\na,b\n\"x,y\nc,d") ("h1,h2\na,b\nc,d")
    ("h1,h2") ("\"x,y") ["a,b"] ["c,d"] (by decide) (by decide) (by decide)

/-- C6: for a table all of whose rows tokenize, the reader returns one
record per non-header line, each record's key set is exactly the header's
column set, a field missing at some header position defaults to the empty
string, and fields beyond the header's column count are dropped (the
record depends only on the first header-length fields). -/
theorem table_shape_c6 (text : String) (hline : String) (rest : List String)
    (hcl : cleanLines text = hline :: rest)
    (hok : ∀ l, l ∈ hline :: rest → (tokres l).isSome = true) :
    ∃ headers : List String,
      tokres hline = some headers
      ∧ parseCSV text =
          Except.ok (rest.map (fun line => buildRecord headers ((tokres line).getD [])))
      ∧ (rest.map (fun line => buildRecord headers ((tokres line).getD []))).length = rest.length
      ∧ (∀ r, r ∈ rest.map (fun line => buildRecord headers ((tokres line).getD [])) →
          ∀ k : String, (mapGet r k).isSome = true ↔ k ∈ headers)
      ∧ (∀ hs fs : List String, buildRecord hs fs = buildRecord hs (fs.take hs.length))
      ∧ (∀ hs fs : List String, ∀ i : Fin hs.length, hs.Nodup →
          mapGet (buildRecord hs fs) (hs.get i) = some (fs.getD i.1 (""))) := by
  obtain ⟨headers, hh⟩ :=
    Option.isSome_iff_exists.mp (hok hline (List.mem_cons_self hline rest))
  refine ⟨headers, hh, ?_, by simp, ?_, buildRecord_take,
    fun hs fs i hnd => buildRecord_get hs fs hnd i⟩
  · rw [parseCSV_eq text hline rest hcl, parseCSVLine, hh]
    dsimp only
    rw [parseRows_eq_filterMap,
      filterMap_tokres_map headers rest (fun x hx => hok x (List.mem_cons_of_mem _ hx))]
  · intro r hr k
    obtain ⟨line, _, hline'⟩ := List.mem_map.mp hr
    rw [← hline']
    exact buildRecord_isSome headers _ k

/-- C6 witness: a concrete three-line table where the third line is short
(missing field defaults to the empty string). -/
theorem table_shape_c6_witness :
    ∃ headers : List String,
      tokres ("id,name") = some headers
      ∧ parseCSV ("id,name\na,b\nc") =
          Except.ok ((["a,b", "c"]).map (fun line => buildRecord headers ((tokres line).getD [])))
      ∧ ((["a,b", "c"]).map (fun line => buildRecord headers ((tokres line).getD []))).length =
          (["a,b", "c"]).length
      ∧ (∀ r, r ∈ (["a,b", "c"]).map (fun line => buildRecord headers ((tokres line).getD [])) →
          ∀ k : String, (mapGet r k).isSome = true ↔ k ∈ headers)
      ∧ (∀ hs fs : List String, buildRecord hs fs = buildRecord hs (fs.take hs.length))
      ∧ (∀ hs fs : List String, ∀ i : Fin hs.length, hs.Nodup →
          mapGet (buildRecord hs fs) (hs.get i) = some (fs.getD i.1 (""))) :=
  table_shape_c6 ("id,name\na,b\nc") ("id,name") ["a,b", "c"] (by decide) (by decide)

/-- C1: every project's caseStudy field is exactly the processed group
stored under that project's trimmed id; a group whose key matches no
project id appears (with the same processed sections) in the standalone
orphan collection under that key while no project carries the key; a group
whose key matches some project id is attached as that project's caseStudy
and is absent from the orphan collection. -/
theorem orphan_case_study_c1 (projects projectDetails css : List Record)
    (k : String) (secs : List CSEntry)
    (hk : mapGet (caseStudyById css) k = some secs) :
    (∀ p, p ∈ projectsData projects projectDetails css →
        p.caseStudy = processGroup ((mapGet (caseStudyById css) p.id).getD []))
    ∧ ((¬ ∃ p, p ∈ projectsData projects projectDetails css ∧ p.id = k) →
        ((∃ e, e ∈ caseStudyOnly projects projectDetails css ∧ e.id = k ∧
            e.caseStudy = processGroup secs)
          ∧ ∀ p, p ∈ projectsData projects projectDetails css → p.id ≠ k))
    ∧ ((∃ p, p ∈ projectsData projects projectDetails css ∧ p.id = k) →
        ((∀ e, e ∈ caseStudyOnly projects projectDetails css → e.id ≠ k)
          ∧ ∀ p, p ∈ projectsData projects projectDetails css → p.id = k →
              p.caseStudy = processGroup secs)) := by
  refine ⟨fun p hp => caseStudy_formula projects projectDetails css p hp, ?_, ?_⟩
  · intro hno
    refine ⟨⟨⟨k, processGroup secs⟩, ?_, rfl, rfl⟩, fun p hp hpk => hno ⟨p, hp, hpk⟩⟩
    unfold caseStudyOnly
    refine List.mem_map.mpr ⟨(k, secs), ?_, rfl⟩
    rw [List.mem_filter]
    refine ⟨mapGet_eq_some_mem hk, ?_⟩
    rw [Bool.not_eq_true', List.any_eq_false]
    intro p hp
    simp only [beq_iff_eq]
    exact fun hpk => hno ⟨p, hp, hpk⟩
  · rintro ⟨p0, hp0, hp0k⟩
    constructor
    · intro e he hek
      unfold caseStudyOnly at he
      obtain ⟨pr, hpr, hpre⟩ := List.mem_map.mp he
      rw [List.mem_filter] at hpr
      have heid : e.id = pr.1 := by rw [← hpre]
      have hprk : pr.1 = k := heid ▸ hek
      have := hpr.2
      rw [Bool.not_eq_true', List.any_eq_false] at this
      exact this p0 hp0 (by simp [beq_iff_eq, hprk, hp0k])
    · intro p hp hpk
      rw [caseStudy_formula projects projectDetails css p hp, hpk, hk]
      rfl

/-- C1 witness: one project with id a, one orphan group keyed z. -/
theorem orphan_case_study_c1_witness :
    (¬ ∃ p, p ∈ projectsData [[(("id"), ("a"))]] []
        [[(("project_id"), ("z")), (("text"), ("t"))]] ∧ p.id = "z")
    ∧ (∃ e, e ∈ caseStudyOnly [[(("id"), ("a"))]] []
        [[(("project_id"), ("z")), (("text"), ("t"))]] ∧ e.id = "z" ∧
        e.caseStudy = processGroup [{ image := none, text := some ("t"), sectionTitle := none, order := 0 }]) := by
  have hno : ¬ ∃ p, p ∈ projectsData [[(("id"), ("a"))]] []
      [[(("project_id"), ("z")), (("text"), ("t"))]] ∧ p.id = "z" := by decide
  exact ⟨hno,
    ((orphan_case_study_c1 [[(("id"), ("a"))]] []
      [[(("project_id"), ("z")), (("text"), ("t"))]] ("z")
      [{ image := none, text := some ("t"), sectionTitle := none, order := 0 }]
      (by decide)).2.1 hno).1⟩

/-- C10: a case-study-section row whose foreign key is empty after
trimming (or missing) contributes to no group: inserting such a row
anywhere in the table changes neither the grouping, nor any project's
caseStudy, nor the orphan collection, and the empty string is never a
group key. -/
theorem empty_fk_discarded_c10 (projects projectDetails pre post : List Record) (r : Record)
    (hr : csFK r = "") :
    caseStudyById (pre ++ r :: post) = caseStudyById (pre ++ post)
    ∧ projectsData projects projectDetails (pre ++ r :: post) =
        projectsData projects projectDetails (pre ++ post)
    ∧ caseStudyOnly projects projectDetails (pre ++ r :: post) =
        caseStudyOnly projects projectDetails (pre ++ post)
    ∧ (∀ rows : List Record, mapGet (caseStudyById rows) ("") = none) := by
  have hgrp : caseStudyById (pre ++ r :: post) = caseStudyById (pre ++ post) := by
    unfold caseStudyById
    rw [List.foldl_append, List.foldl_append, List.foldl_cons]
    congr 1
    unfold csStep
    rw [hr]
    simp
  refine ⟨hgrp, ?_, ?_, ?_⟩
  · unfold projectsData
    rw [hgrp]
  · unfold caseStudyOnly projectsData
    rw [hgrp]
  · intro rows
    have key : ∀ (rows : List Record) (acc : List (String × List CSEntry)),
        mapGet acc ("") = none → mapGet (List.foldl csStep acc rows) ("") = none := by
      intro rows
      induction rows with
      | nil =>
        intro acc h
        simpa using h
      | cons a as ih =>
        intro acc h
        rw [List.foldl_cons]
        apply ih
        unfold csStep
        by_cases ha : csFK a = ""
        · simpa [ha] using h
        · rw [if_neg ha, mapGet_set_ne _ _ _ _ (fun he => ha he.symm)]
          exact h
    exact key rows [] rfl

/-- C10 witness: inserting a row whose foreign key trims to the empty
string between two rows leaves all three outputs unchanged. -/
theorem empty_fk_discarded_c10_witness :
    caseStudyById ([[(("project_id"), ("a"))]] ++ [(("project_id"), ("  "))] :: [[(("project_id"), ("b"))]]) =
        caseStudyById ([[(("project_id"), ("a"))]] ++ [[(("project_id"), ("b"))]])
    ∧ projectsData [[(("id"), ("a"))]] []
        ([[(("project_id"), ("a"))]] ++ [(("project_id"), ("  "))] :: [[(("project_id"), ("b"))]]) =
        projectsData [[(("id"), ("a"))]] [] ([[(("project_id"), ("a"))]] ++ [[(("project_id"), ("b"))]])
    ∧ caseStudyOnly [[(("id"), ("a"))]] []
        ([[(("project_id"), ("a"))]] ++ [(("project_id"), ("  "))] :: [[(("project_id"), ("b"))]]) =
        caseStudyOnly [[(("id"), ("a"))]] [] ([[(("project_id"), ("a"))]] ++ [[(("project_id"), ("b"))]])
    ∧ (∀ rows : List Record, mapGet (caseStudyById rows) ("") = none) :=
  empty_fk_discarded_c10 [[(("id"), ("a"))]] [] [[(("project_id"), ("a"))]]
    [[(("project_id"), ("b"))]] [(("project_id"), ("  "))] (by decide)

/-- C2 counterexample: a project-detail row whose table spells the foreign
key projectId does not join to project a, while the same row spelled
project_id does; likewise a focus-area-section row spelled focusAreaId
does not join. So the two-spellings acceptance does not hold for every
child table. -/
theorem fk_spelling_c2_cex :
    (projectsData [[(("id"), ("a"))]] [[(("projectId"), ("a")), (("heading"), ("h"))]] []).map
        (fun p => p.details) = [[]]
    ∧ (projectsData [[(("id"), ("a"))]] [[(("project_id"), ("a")), (("heading"), ("h"))]] []).map
        (fun p => p.details) =
        [[{ heading := some ("h"), text := none, image := "", caseStudyLink := "", password := "" }]]
    ∧ (focusAreasData [[(("id"), ("f"))]] [[(("focusAreaId"), ("f")), (("text"), ("t"))]]).map
        (fun fa => fa.sections) = [[]] := by
  exact ⟨by decide, by decide, by decide⟩

/-- C2 as amended: only the case-study-sections table accepts both
spellings of its foreign key (project_id taking precedence when truthy,
projectId otherwise); project-details rows join solely through project_id
and focus-area-section rows solely through focus_area_id, so a child table
of those two kinds whose header uses only the camelCase spelling joins to
nothing. -/
theorem fk_spelling_c2 (projects projectDetails css fas fass : List Record)
    (hd : ∀ d, d ∈ projectDetails → getF d ("project_id") = none)
    (hs : ∀ s, s ∈ fass → getF s ("focus_area_id") = none) :
    (∀ p, p ∈ projectsData projects projectDetails css → p.details = [])
    ∧ (∀ fa, fa ∈ focusAreasData fas fass → (fa.id).isSome = true → fa.sections = [])
    ∧ (∀ cs : Record, getF cs ("project_id") = none →
        csFK cs = trimStr ((getF cs ("projectId")).getD ("")))
    ∧ (∀ cs : Record, ∀ v : String, getF cs ("project_id") = some v → v ≠ "" →
        csFK cs = trimStr v) := by
  refine ⟨?_, ?_, ?_, ?_⟩
  · intro p hp
    obtain ⟨row, _, hrow⟩ := (mem_projectsData_iff projects projectDetails css p).mp hp
    have hfil : projectDetails.filter
        (fun d => getF d ("project_id") == some (trimStr ((getF row ("id")).getD ("")))) = [] :=
      List.filter_eq_nil_iff.mpr (fun d hdm => by simp [hd d hdm])
    rw [← hrow]
    show (sortStable detailKey (projectDetails.filter _)).map mkDetail = []
    rw [hfil]
    rfl
  · intro fa hfa hid
    obtain ⟨row, _, hrow⟩ := (mem_focusAreasData_iff fas fass fa).mp hfa
    have hid' : (getF row ("id")).isSome = true := by
      rw [← hrow] at hid
      exact hid
    obtain ⟨v, hv⟩ := Option.isSome_iff_exists.mp hid'
    have hfil : fass.filter (fun s => getF s ("focus_area_id") == getF row ("id")) = [] :=
      List.filter_eq_nil_iff.mpr (fun s hsm => by simp [hs s hsm, hv])
    rw [← hrow]
    show (sortStable secKey (fass.filter _)).map mkFASection = []
    rw [hfil]
    rfl
  · intro cs h
    simp [csFK, jsOr, truthy, h]
  · intro cs v hv hne
    simp [csFK, jsOr, truthy, hv, hne]

/-- C2 witness: with a camelCase-only detail table and a camelCase-only
focus-area-section table, every project has empty details and every
focus area with an id has empty sections, while the case-study foreign
key still reads the camelCase spelling. -/
theorem fk_spelling_c2_witness :
    (∀ p, p ∈ projectsData [[(("id"), ("a"))]] [[(("projectId"), ("a"))]] [] → p.details = [])
    ∧ (∀ fa, fa ∈ focusAreasData [[(("id"), ("f"))]] [[(("text"), ("t"))]] →
        (fa.id).isSome = true → fa.sections = [])
    ∧ (∀ cs : Record, getF cs ("project_id") = none →
        csFK cs = trimStr ((getF cs ("projectId")).getD ("")))
    ∧ (∀ cs : Record, ∀ v : String, getF cs ("project_id") = some v → v ≠ "" →
        csFK cs = trimStr v) :=
  fk_spelling_c2 [[(("id"), ("a"))]] [[(("projectId"), ("a"))]] [] [[(("id"), ("f"))]]
    [[(("text"), ("t"))]] (by decide) (by decide)

/-- C4 counterexample: with one project row and an initially empty output
directory, a failure on the second write (focus-areas.json) exits with
code 1 but leaves the directory neither in its initial state nor in the
fully-written state: projects.json already carries the new content while
the other three documents are missing. Writing is therefore not
all-or-nothing across the output set. -/
theorem write_atomicity_c4_cex :
    (runWrites [] (buildWriteOps [[(("id"), ("a"))]] [] [] [] [] [] [] [] []) (some 1)).2 = 1
    ∧ (runWrites [] (buildWriteOps [[(("id"), ("a"))]] [] [] [] [] [] [] [] []) (some 1)).1 ≠ []
    ∧ (runWrites [] (buildWriteOps [[(("id"), ("a"))]] [] [] [] [] [] [] [] []) (some 1)).1 ≠
        (runWrites [] (buildWriteOps [[(("id"), ("a"))]] [] [] [] [] [] [] [] []) none).1 := by
  exact ⟨by decide, by decide, by decide⟩

/-- C4 as amended: the four documents are written sequentially by plain
overwrites; a failure at the k-th write aborts the invocation with exit
code 1, the first k documents keeping their new contents and the k-th and
later documents keeping their prior contents, and a run with no failure
applies all four writes and exits 0. -/
theorem write_sequence_c4 (projects projectDetails css fas fass rh re red rs : List Record)
    (dir : List (String × Doc)) (k : Nat)
    (hk : k < (buildWriteOps projects projectDetails css fas fass rh re red rs).length) :
    runWrites dir (buildWriteOps projects projectDetails css fas fass rh re red rs) (some k) =
      (((buildWriteOps projects projectDetails css fas fass rh re red rs).take k).foldl
        writeStep dir, 1)
    ∧ runWrites dir (buildWriteOps projects projectDetails css fas fass rh re red rs) none =
      ((buildWriteOps projects projectDetails css fas fass rh re red rs).foldl writeStep dir, 0) :=
  ⟨runWrites_fail _ dir k hk, runWrites_none _ dir⟩

/-- C4 witness: the amended statement applied at one project row, an empty
directory and a failure on the second write. -/
theorem write_sequence_c4_witness :
    runWrites [] (buildWriteOps [[(("id"), ("a"))]] [] [] [] [] [] [] [] []) (some 1) =
      (((buildWriteOps [[(("id"), ("a"))]] [] [] [] [] [] [] [] []).take 1).foldl writeStep [], 1)
    ∧ runWrites [] (buildWriteOps [[(("id"), ("a"))]] [] [] [] [] [] [] [] []) none =
      ((buildWriteOps [[(("id"), ("a"))]] [] [] [] [] [] [] [] []).foldl writeStep [], 0) :=
  write_sequence_c4 [[(("id"), ("a"))]] [] [] [] [] [] [] [] [] [] 1 (by decide)

end BuildData
